import Mathlib

/-!
Verification development for the spacerust boid simulation core.

The development shallowly embeds the two source files of the repository:
src/spatial_index.rs (the uniform grid spatial index and the two tick-phase
entry points) and src/main.rs (the neighbor aggregator and steering engine).
f32 arithmetic is idealized as real arithmetic, Rust i32 cell coordinates as
unbounded integers, and entity handles as natural numbers.  The sentinel
"unassigned" cell value (i32::MIN, i32::MIN) is modelled as Option.none,
which is distinct from every real cell.
-/

noncomputable section

/-- Mirror of bevy Vec3: three real components.  Only x and z matter for the
spatial index; steering math carries all three components. -/
structure Vec3 where
  x : ℝ
  y : ℝ
  z : ℝ

namespace Vec3

def add (a b : Vec3) : Vec3 := ⟨a.x + b.x, a.y + b.y, a.z + b.z⟩

def sub (a b : Vec3) : Vec3 := ⟨a.x - b.x, a.y - b.y, a.z - b.z⟩

/-- Componentwise scalar multiplication, mirror of Vec3 * f32 in glam. -/
def mul (a : Vec3) (s : ℝ) : Vec3 := ⟨a.x * s, a.y * s, a.z * s⟩

/-- Componentwise scalar division, mirror of Vec3 / f32 in glam. -/
def div (a : Vec3) (s : ℝ) : Vec3 := ⟨a.x / s, a.y / s, a.z / s⟩

def zero : Vec3 := ⟨0, 0, 0⟩

instance : Add Vec3 := ⟨add⟩
instance : Sub Vec3 := ⟨sub⟩
instance : Zero Vec3 := ⟨zero⟩

/-- Mirror of glam Vec3::length: the euclidean norm of the three components. -/
noncomputable def length (v : Vec3) : ℝ := Real.sqrt (v.x ^ 2 + v.y ^ 2 + v.z ^ 2)

/-- Mirror of glam Vec3::normalize: the vector scaled by the reciprocal of
its length (guarded by callers against zero length). -/
noncomputable def normalize (v : Vec3) : Vec3 := v.mul (1 / v.length)

/-- The dot product of the x/y/z components, used only in proofs. -/
def dot (a b : Vec3) : ℝ := a.x * b.x + a.y * b.y + a.z * b.z

theorem add_def (a b : Vec3) : a + b = ⟨a.x + b.x, a.y + b.y, a.z + b.z⟩ := rfl

theorem sub_def (a b : Vec3) : a - b = ⟨a.x - b.x, a.y - b.y, a.z - b.z⟩ := rfl

theorem zero_def : (0 : Vec3) = ⟨0, 0, 0⟩ := rfl

theorem zero_add_vec (v : Vec3) : (0 : Vec3) + v = v := by
  cases v; simp [add_def, zero_def]

theorem length_nonneg (v : Vec3) : 0 ≤ v.length := Real.sqrt_nonneg _

theorem length_zero : (0 : Vec3).length = 0 := by
  simp [length, zero_def]

/-- Evaluation helper: the length of an explicit vector whose squared norm is
a perfect square. -/
theorem length_eval (x y z r : ℝ) (hr : 0 ≤ r) (h : x ^ 2 + y ^ 2 + z ^ 2 = r ^ 2) :
    length ⟨x, y, z⟩ = r := by
  simp only [length]
  rw [h, Real.sqrt_sq hr]

theorem length_mul (v : Vec3) (s : ℝ) : (v.mul s).length = |s| * v.length := by
  simp only [length, mul]
  have h : (v.x * s) ^ 2 + (v.y * s) ^ 2 + (v.z * s) ^ 2
      = s ^ 2 * (v.x ^ 2 + v.y ^ 2 + v.z ^ 2) := by ring
  rw [h, Real.sqrt_mul (sq_nonneg s), Real.sqrt_sq_eq_abs]

theorem length_pos_of_lt (v : Vec3) (c : ℝ) (hc : 0 ≤ c) (h : c < v.length) :
    0 < v.length := lt_of_le_of_lt hc h

theorem length_normalize (v : Vec3) (h : 0 < v.length) : v.normalize.length = 1 := by
  rw [normalize, length_mul, abs_of_pos (by positivity), one_div,
    inv_mul_cancel₀ (ne_of_gt h)]

theorem dot_le_mul_length (a b : Vec3) : a.dot b ≤ a.length * b.length := by
  have hA : 0 ≤ a.x ^ 2 + a.y ^ 2 + a.z ^ 2 := by positivity
  have hB : 0 ≤ b.x ^ 2 + b.y ^ 2 + b.z ^ 2 := by positivity
  have hcs : (a.dot b) ^ 2 ≤ (a.x ^ 2 + a.y ^ 2 + a.z ^ 2) * (b.x ^ 2 + b.y ^ 2 + b.z ^ 2) := by
    simp only [dot]
    nlinarith [sq_nonneg (a.x * b.y - a.y * b.x), sq_nonneg (a.x * b.z - a.z * b.x),
      sq_nonneg (a.y * b.z - a.z * b.y)]
  calc a.dot b ≤ |a.dot b| := le_abs_self _
    _ = Real.sqrt ((a.dot b) ^ 2) := (Real.sqrt_sq_eq_abs _).symm
    _ ≤ Real.sqrt ((a.x ^ 2 + a.y ^ 2 + a.z ^ 2) * (b.x ^ 2 + b.y ^ 2 + b.z ^ 2)) :=
        Real.sqrt_le_sqrt hcs
    _ = a.length * b.length := by rw [Real.sqrt_mul hA, length, length]

theorem length_add_le (a b : Vec3) : (a + b).length ≤ a.length + b.length := by
  have hA : 0 ≤ a.x ^ 2 + a.y ^ 2 + a.z ^ 2 := by positivity
  have hB : 0 ≤ b.x ^ 2 + b.y ^ 2 + b.z ^ 2 := by positivity
  have hdot := dot_le_mul_length a b
  have hsum : (a + b).x ^ 2 + (a + b).y ^ 2 + (a + b).z ^ 2
      = (a.x ^ 2 + a.y ^ 2 + a.z ^ 2) + 2 * a.dot b + (b.x ^ 2 + b.y ^ 2 + b.z ^ 2) := by
    simp only [add_def, dot]; ring
  have hle : (a + b).x ^ 2 + (a + b).y ^ 2 + (a + b).z ^ 2
      ≤ (a.length + b.length) ^ 2 := by
    rw [hsum]
    have h1 : a.length ^ 2 = a.x ^ 2 + a.y ^ 2 + a.z ^ 2 := Real.sq_sqrt hA
    have h2 : b.length ^ 2 = b.x ^ 2 + b.y ^ 2 + b.z ^ 2 := Real.sq_sqrt hB
    nlinarith [hdot]
  calc (a + b).length
      ≤ Real.sqrt ((a.length + b.length) ^ 2) := Real.sqrt_le_sqrt hle
    _ = a.length + b.length := Real.sqrt_sq (add_nonneg (length_nonneg a) (length_nonneg b))

end Vec3

/-- Entity handles: bevy Entity idealized as a natural number. -/
abbrev Entity := ℕ

/-- Mirror of the Cell type: a pair of integer cell coordinates. -/
abbrev Cell := ℤ × ℤ

/-- Mirror of CELL_DIM in spatial_index.rs. -/
def CELL_DIM : ℝ := 20

/-- Mirror of calc_cell: floor of the planar position divided by the cell size. -/
def calc_cell (pos : Vec3) : Cell := (⌊pos.x / CELL_DIM⌋, ⌊pos.z / CELL_DIM⌋)

/-- Mirror of SpatialIndex: the HashMap from cells to entity vectors is
modelled as a function to an optional list (none encodes an absent key). -/
structure SpatialIndex where
  cells : Cell → Option (List Entity)

/-- The list of integers from a to b inclusive (empty when b < a), the
shallow embedding of a Rust a..=b loop over integers. -/
def intRange (a b : ℤ) : List ℤ := (List.range (b + 1 - a).toNat).map (fun (i : ℕ) => a + (i : ℤ))

theorem mem_intRange {a b n : ℤ} : n ∈ intRange a b ↔ a ≤ n ∧ n ≤ b := by
  constructor
  · intro h
    rw [intRange, List.mem_map] at h
    obtain ⟨i, hi, hn⟩ := h
    rw [List.mem_range] at hi
    omega
  · intro h
    rw [intRange, List.mem_map]
    refine ⟨(n - a).toNat, ?_, ?_⟩
    · rw [List.mem_range]
      omega
    · omega

namespace SpatialIndex

/-- Mirror of SpatialIndex::new. -/
def new : SpatialIndex := ⟨fun _ => none⟩

/-- The entity list associated with a cell (empty when the key is absent). -/
def bucket (s : SpatialIndex) (c : Cell) : List Entity := (s.cells c).getD []

/-- Mirror of SpatialIndex::insert: push the entity onto the bucket for the
cell, creating the bucket when absent. -/
def insert (s : SpatialIndex) (c : Cell) (e : Entity) : SpatialIndex :=
  ⟨fun c2 => if c2 = c then some ((s.cells c).getD [] ++ [e]) else s.cells c2⟩

/-- Mirror of SpatialIndex::remove: when the key is occupied, retain the
entries different from the entity and delete the key if the remaining vector
is empty. -/
def remove (s : SpatialIndex) (c : Cell) (e : Entity) : SpatialIndex :=
  ⟨fun c2 => if c2 = c then
      match s.cells c with
      | none => none
      | some l =>
        let l2 := l.filter (fun a => decide (a ≠ e))
        if l2 = [] then none else some l2
    else s.cells c2⟩

/-- Mirror of SpatialIndex::query_cells: for every row of cells within the
radius bound, compute the nearest row boundary to the circle center, derive
the x extent from the circle equation, and enumerate the cells of that
extent. -/
def query_cells (pos : Vec3) (radius : ℝ) : List Cell :=
  let cx := pos.x / CELL_DIM
  let cz := pos.z / CELL_DIM
  let r := radius / CELL_DIM
  let minz := ⌊cz - r⌋
  let maxz := ⌈cz + r⌉ - 1
  (intRange minz maxz).flatMap (fun z =>
    let ztest := if ((z + 1 : ℤ) : ℝ) < cz then ((z + 1 : ℤ) : ℝ)
      else if ((z : ℤ) : ℝ) > cz then ((z : ℤ) : ℝ) else cz
    let zdist2 := (ztest - cz) * (ztest - cz)
    let xdiff := Real.sqrt (r * r - zdist2)
    let minx := ⌊cx - xdiff⌋
    let maxx := ⌈cx + xdiff⌉ - 1
    (intRange minx maxx).map (fun x => (x, z)))

/-- Mirror of SpatialIndex::query: every entity of every enumerated cell that
has a bucket. -/
def query (s : SpatialIndex) (pos : Vec3) (radius : ℝ) : List Entity :=
  (query_cells pos radius).flatMap (fun c => (s.cells c).getD [])

theorem mem_bucket_insert (s : SpatialIndex) (c : Cell) (e : Entity) (c2 : Cell) (e2 : Entity) :
    e2 ∈ (s.insert c e).bucket c2 ↔ e2 ∈ s.bucket c2 ∨ (c2 = c ∧ e2 = e) := by
  by_cases hc : c2 = c
  · subst hc
    simp [bucket, insert]
  · simp [bucket, insert, hc]

theorem remove_bucket_eq (s : SpatialIndex) (c : Cell) (e : Entity) :
    (s.remove c e).bucket c = (s.bucket c).filter (fun a => decide (a ≠ e)) := by
  simp only [bucket, remove, if_pos rfl]
  cases h : s.cells c with
  | none => simp
  | some l =>
    dsimp only
    by_cases hf : l.filter (fun a => decide (a ≠ e)) = []
    · rw [if_pos hf]
      simp only [Option.getD_none, Option.getD_some]
      exact hf.symm
    · rw [if_neg hf]
      simp

theorem remove_bucket_ne (s : SpatialIndex) (c : Cell) (e : Entity) (c2 : Cell) (hc : c2 ≠ c) :
    (s.remove c e).bucket c2 = s.bucket c2 := by
  simp [bucket, remove, hc]

theorem mem_bucket_remove (s : SpatialIndex) (c : Cell) (e : Entity) (c2 : Cell) (e2 : Entity) :
    e2 ∈ (s.remove c e).bucket c2 ↔ e2 ∈ s.bucket c2 ∧ ¬(c2 = c ∧ e2 = e) := by
  by_cases hc : c2 = c
  · subst hc
    rw [remove_bucket_eq]
    simp [List.mem_filter]
  · rw [remove_bucket_ne s c e c2 hc]
    simp [hc]

theorem insert_no_empty (s : SpatialIndex) (c : Cell) (e : Entity)
    (h : ∀ c2 l, s.cells c2 = some l → l ≠ []) :
    ∀ c2 l, (s.insert c e).cells c2 = some l → l ≠ [] := by
  intro c2 l hl
  simp only [insert] at hl
  by_cases hc : c2 = c
  · rw [if_pos hc] at hl
    cases hl
    simp
  · rw [if_neg hc] at hl
    exact h c2 l hl

theorem remove_no_empty (s : SpatialIndex) (c : Cell) (e : Entity)
    (h : ∀ c2 l, s.cells c2 = some l → l ≠ []) :
    ∀ c2 l, (s.remove c e).cells c2 = some l → l ≠ [] := by
  intro c2 l hl
  simp only [remove] at hl
  by_cases hc : c2 = c
  · rw [if_pos hc] at hl
    cases hcells : s.cells c with
    | none => rw [hcells] at hl; cases hl
    | some l0 =>
      rw [hcells] at hl
      dsimp only at hl
      by_cases hf : l0.filter (fun a => decide (a ≠ e)) = []
      · rw [if_pos hf] at hl; cases hl
      · rw [if_neg hf] at hl
        cases hl
        exact hf
  · rw [if_neg hc] at hl
    exact h c2 l hl

end SpatialIndex

/-- Mirror of CellAssociation.  The sentinel value (i32::MIN, i32::MIN) used
by CellAssociation::new, which is distinct from every cell a position can map
to, is modelled as none. -/
structure CellAssociation where
  cell : Option Cell
  new_cell : Option Cell

/-- Mirror of CellAssociation::new: both fields start at the sentinel. -/
def CellAssociation.new : CellAssociation := ⟨none, none⟩

/-- The simulation state the two tick phases act on: the fixed list of
spawned agents, the per-agent membership record, the per-agent HasDirtyCell
marker, and the spatial index resource. -/
structure World where
  agents : List Entity
  assoc : Entity → CellAssociation
  dirty : Entity → Bool
  index : SpatialIndex

/-- The startup state: agents spawned with CellAssociation::new, no dirty
markers, and an empty SpatialIndex resource. -/
def initialWorld (agents : List Entity) : World :=
  { agents := agents
    assoc := fun _ => CellAssociation.new
    dirty := fun _ => false
    index := SpatialIndex.new }

/-- Mirror of the update_cell_association system: for every agent without the
HasDirtyCell marker, recompute new_cell from the current position and mark
the agent dirty when it differs from the committed cell. -/
def update_cell_association (pos : Entity → Vec3) (w : World) : World :=
  { w with
    assoc := fun e =>
      if e ∈ w.agents ∧ w.dirty e = false then
        ⟨(w.assoc e).cell, some (calc_cell (pos e))⟩
      else w.assoc e
    dirty := fun e =>
      if e ∈ w.agents ∧ w.dirty e = false then
        decide (some (calc_cell (pos e)) ≠ (w.assoc e).cell)
      else w.dirty e }

/-- Mirror of one iteration of the update_spatial_index system for one dirty
agent: remove from the committed cell (a removal at the sentinel cell touches
no bucket, since nothing is ever inserted there), insert into the new cell,
commit the new cell and clear the marker.  Agents without the marker are not
matched by the query and are untouched. -/
def commitAgent (w : World) (e : Entity) : World :=
  if w.dirty e = true then
    match (w.assoc e).new_cell with
    | none => w
    | some nc =>
      let idx1 := match (w.assoc e).cell with
        | none => w.index
        | some c => w.index.remove c e
      { w with
        index := idx1.insert nc e
        assoc := fun e2 => if e2 = e then ⟨some nc, some nc⟩ else w.assoc e2
        dirty := fun e2 => if e2 = e then false else w.dirty e2 }
  else w

/-- Mirror of the update_spatial_index system: commit every dirty agent. -/
def update_spatial_index (w : World) : World := w.agents.foldl commitAgent w

/-- One simulation tick as scheduled in main.rs: update_cell_association
followed by update_spatial_index, the positions for the tick having been
finalized beforehand. -/
def tick (pos : Entity → Vec3) (w : World) : World :=
  update_spatial_index (update_cell_association pos w)

/-- The states of the grid index system reachable from startup by running
whole ticks, with arbitrary agent lists and arbitrary position updates
between ticks. -/
inductive Reachable : World → Prop where
  | init (agents : List Entity) : Reachable (initialWorld agents)
  | step (pos : Entity → Vec3) (w : World) : Reachable w → Reachable (tick pos w)

/-- No bucket entry of the index is an empty list: emptied buckets are
deleted eagerly by SpatialIndex::remove. -/
def noEmptyBuckets (w : World) : Prop :=
  ∀ c l, w.index.cells c = some l → l ≠ []

/-- A handle is in the bucket for a cell exactly when that cell is the
committed current cell of its membership record. -/
def membershipMatches (w : World) : Prop :=
  ∀ e c, e ∈ w.index.bucket c ↔ (w.assoc e).cell = some c

/-- A dirty agent always carries a freshly computed new_cell differing from
its committed cell. -/
def dirtyConsistent (w : World) : Prop :=
  ∀ e, w.dirty e = true →
    ∃ nc, (w.assoc e).new_cell = some nc ∧ (w.assoc e).cell ≠ some nc

/-- The tick invariant of the grid index system. -/
def TickInv (w : World) : Prop :=
  noEmptyBuckets w ∧ membershipMatches w ∧ dirtyConsistent w

theorem TickInv_initial (agents : List Entity) : TickInv (initialWorld agents) := by
  refine ⟨?_, ?_, ?_⟩
  · intro c l hl
    cases hl
  · intro e c
    simp [initialWorld, SpatialIndex.new, SpatialIndex.bucket, CellAssociation.new]
  · intro e he
    simp [initialWorld] at he

theorem TickInv_update_cell_association (pos : Entity → Vec3) (w : World) (h : TickInv w) :
    TickInv (update_cell_association pos w) := by
  obtain ⟨h1, h2, h3⟩ := h
  refine ⟨?_, ?_, ?_⟩
  · intro c l hl
    exact h1 c l hl
  · intro e c
    simp only [update_cell_association]
    by_cases he : e ∈ w.agents ∧ w.dirty e = false
    · rw [if_pos he]
      exact h2 e c
    · rw [if_neg he]
      exact h2 e c
  · intro e he
    simp only [update_cell_association] at he ⊢
    by_cases hc : e ∈ w.agents ∧ w.dirty e = false
    · rw [if_pos hc] at he
      rw [if_pos hc]
      rw [decide_eq_true_eq] at he
      exact ⟨calc_cell (pos e), rfl, fun hcc => he hcc.symm⟩
    · rw [if_neg hc] at he
      rw [if_neg hc]
      exact h3 e he

theorem TickInv_commitAgent (w : World) (e : Entity) (h : TickInv w) : TickInv (commitAgent w e) := by
  obtain ⟨h1, h2, h3⟩ := h
  by_cases hd : w.dirty e = true
  · obtain ⟨nc, hnc, hne⟩ := h3 e hd
    have hstep : commitAgent w e =
        { w with
          index := (match (w.assoc e).cell with
            | none => w.index
            | some c => w.index.remove c e).insert nc e
          assoc := fun e2 => if e2 = e then ⟨some nc, some nc⟩ else w.assoc e2
          dirty := fun e2 => if e2 = e then false else w.dirty e2 } := by
      rw [commitAgent, if_pos hd, hnc]
    rw [hstep]
    have hmem1 : ∀ (f : Entity) (c2 : Cell),
        f ∈ (match (w.assoc e).cell with
          | none => w.index
          | some c => w.index.remove c e).bucket c2 ↔
        f ∈ w.index.bucket c2 ∧ ¬((w.assoc e).cell = some c2 ∧ f = e) := by
      intro f c2
      cases hcell : (w.assoc e).cell with
      | none => simp
      | some c =>
        rw [SpatialIndex.mem_bucket_remove]
        constructor
        · rintro ⟨hm, hn⟩
          refine ⟨hm, ?_⟩
          rintro ⟨hc2, hf⟩
          exact hn ⟨by injection hc2 with hh; exact hh.symm, hf⟩
        · rintro ⟨hm, hn⟩
          refine ⟨hm, ?_⟩
          rintro ⟨hc2, hf⟩
          exact hn ⟨by rw [hc2], hf⟩
    refine ⟨?_, ?_, ?_⟩
    · intro c l hl
      refine SpatialIndex.insert_no_empty _ nc e ?_ c l hl
      cases hcell : (w.assoc e).cell with
      | none => exact h1
      | some c0 =>
        intro c2 l2 hl2
        refine SpatialIndex.remove_no_empty _ c0 e h1 c2 l2 ?_
        exact hl2
    · intro f c
      rw [SpatialIndex.mem_bucket_insert, hmem1]
      by_cases hf : f = e
      · subst hf
        simp only [eq_self_iff_true, if_true, and_true]
        constructor
        · rintro (⟨hm, hn⟩ | hc)
          · exact absurd ((h2 f c).mp hm) hn
          · rw [hc]
        · intro hc
          injection hc with hc
          exact Or.inr hc.symm
      · simp only [if_neg hf]
        constructor
        · rintro (⟨hm, _⟩ | ⟨_, hfe⟩)
          · exact (h2 f c).mp hm
          · exact absurd hfe hf
        · intro hc
          exact Or.inl ⟨(h2 f c).mpr hc, fun hp => hf hp.2⟩
    · intro f hf
      by_cases hfe : f = e
      · subst hfe
        simp only [if_pos rfl] at hf
        cases hf
      · simp only [if_neg hfe] at hf ⊢
        exact h3 f hf
  · rw [commitAgent, if_neg hd]
    exact ⟨h1, h2, h3⟩

theorem TickInv_foldl (l : List Entity) (w : World) (h : TickInv w) :
    TickInv (l.foldl commitAgent w) := by
  induction l generalizing w with
  | nil => exact h
  | cons a l2 ih =>
    exact ih (commitAgent w a) (TickInv_commitAgent w a h)

theorem TickInv_update_spatial_index (w : World) (h : TickInv w) : TickInv (update_spatial_index w) :=
  TickInv_foldl w.agents w h

theorem TickInv_tick (pos : Entity → Vec3) (w : World) (h : TickInv w) : TickInv (tick pos w) :=
  TickInv_update_spatial_index _ (TickInv_update_cell_association pos w h)

theorem TickInv_reachable (w : World) (h : Reachable w) : TickInv w := by
  induction h with
  | init agents => exact TickInv_initial agents
  | step pos w2 _ ih => exact TickInv_tick pos w2 ih

/-- An agent the commit step will not touch: either it carries no dirty
marker, or its record still holds the sentinel new_cell. -/
def Settled (w : World) (e : Entity) : Prop :=
  w.dirty e = false ∨ (w.assoc e).new_cell = none

theorem commitAgent_of_settled (w : World) (e : Entity) (h : Settled w e) :
    commitAgent w e = w := by
  rcases h with h | h
  · rw [commitAgent, if_neg (by simp [h])]
  · by_cases hd : w.dirty e = true
    · rw [commitAgent, if_pos hd, h]
    · rw [commitAgent, if_neg hd]

theorem commitAgent_settles (w : World) (e : Entity) : Settled (commitAgent w e) e := by
  by_cases hd : w.dirty e = true
  · cases hnc : (w.assoc e).new_cell with
    | none =>
      rw [commitAgent, if_pos hd, hnc]
      exact Or.inr hnc
    | some nc =>
      rw [commitAgent, if_pos hd, hnc]
      left
      simp
  · rw [commitAgent, if_neg hd]
    left
    simpa using hd

theorem commitAgent_preserves_settled (w : World) (a e : Entity) (h : Settled w e) :
    Settled (commitAgent w a) e := by
  by_cases hea : e = a
  · subst hea
    exact commitAgent_settles w e
  · by_cases hd : w.dirty a = true
    · cases hnc : (w.assoc a).new_cell with
      | none =>
        rw [commitAgent, if_pos hd, hnc]
        exact h
      | some nc =>
        rw [commitAgent, if_pos hd, hnc]
        rcases h with h | h
        · left
          simpa [hea] using h
        · right
          simpa [hea] using h
    · rw [commitAgent, if_neg hd]
      exact h

theorem foldl_commit_settles (l : List Entity) (w : World) (e : Entity)
    (h : Settled w e ∨ e ∈ l) : Settled (l.foldl commitAgent w) e := by
  induction l generalizing w with
  | nil =>
    rcases h with h | h
    · exact h
    · cases h
  | cons a t ih =>
    refine ih (commitAgent w a) ?_
    rcases h with h | h
    · exact Or.inl (commitAgent_preserves_settled w a e h)
    · rcases List.mem_cons.mp h with h | h
      · subst h
        exact Or.inl (commitAgent_settles w e)
      · exact Or.inr h

theorem foldl_commit_noop (l : List Entity) (w : World) (h : ∀ e ∈ l, Settled w e) :
    l.foldl commitAgent w = w := by
  induction l with
  | nil => rfl
  | cons a t ih =>
    have ha : commitAgent w a = w := commitAgent_of_settled w a (h a (List.mem_cons_self a t))
    rw [List.foldl_cons, ha]
    exact ih (fun e he => h e (List.mem_cons_of_mem a he))

theorem commitAgent_agents (w : World) (e : Entity) : (commitAgent w e).agents = w.agents := by
  by_cases hd : w.dirty e = true
  · cases hnc : (w.assoc e).new_cell with
    | none => rw [commitAgent, if_pos hd, hnc]
    | some nc => rw [commitAgent, if_pos hd, hnc]
  · rw [commitAgent, if_neg hd]

theorem foldl_commit_agents (l : List Entity) (w : World) :
    (l.foldl commitAgent w).agents = w.agents := by
  induction l generalizing w with
  | nil => rfl
  | cons a t ih =>
    rw [List.foldl_cons, ih (commitAgent w a), commitAgent_agents]

theorem update_spatial_index_agents (w : World) :
    (update_spatial_index w).agents = w.agents :=
  foldl_commit_agents w.agents w

/-- Mirror of BOID_RADIUS in main.rs. -/
def BOID_RADIUS : ℝ := 20

/-- Mirror of the Velocity component. -/
structure Velocity where
  velocity : Vec3
  max_velocity : ℝ
  max_force : ℝ
  turn_speed : ℝ

/-- Mirror of limit in main.rs: rescale a vector to the given length only
when its length exceeds it. -/
def limit (v : Vec3) (len : ℝ) : Vec3 :=
  if v.length > len then v.normalize.mul len else v

/-- Mirror of the Boid accumulator: borrowed focal transform translation and
velocity component plus the running sums and counts. -/
structure Boid where
  transform : Vec3
  velocity : Velocity
  sep_sum : Vec3
  sep_count : ℤ
  align_sum : Vec3
  align_count : ℤ
  cohesion_sum : Vec3
  cohesion_count : ℤ

namespace Boid

/-- Mirror of Boid::new. -/
def new (transform : Vec3) (velocity : Velocity) : Boid :=
  { transform := transform
    velocity := velocity
    sep_sum := 0
    sep_count := 0
    align_sum := 0
    align_count := 0
    cohesion_sum := 0
    cohesion_count := 0 }

/-- Mirror of Boid::add_other: skip far or coincident candidates, then fold
the candidate into the separation, alignment and cohesion sums gated by the
distance thresholds. -/
def add_other (b : Boid) (transform : Vec3) (velocity : Velocity) : Boid :=
  let delta := b.transform - transform
  let dist := delta.length
  if dist > BOID_RADIUS ∨ dist < 0.001 then b
  else
    let b1 := if dist < 10 then
        { b with sep_sum := b.sep_sum + delta.normalize.div dist,
                 sep_count := b.sep_count + 1 }
      else b
    let b2 := if dist < 20 then
        { b1 with align_sum := b1.align_sum + velocity.velocity,
                  align_count := b1.align_count + 1 }
      else b1
    if dist < 20 then
      { b2 with cohesion_sum := b2.cohesion_sum + transform,
                cohesion_count := b2.cohesion_count + 1 }
    else b2

/-- Mirror of Boid::steer. -/
def steer (b : Boid) (dir : Vec3) : Vec3 :=
  let len := dir.length
  if len < 0.000001 then 0
  else
    let adjusted_dir := dir.mul (b.velocity.max_velocity / len)
    limit (adjusted_dir - b.velocity.velocity) b.velocity.max_force

/-- Mirror of Boid::seek. -/
def seek (b : Boid) (target : Vec3) : Vec3 :=
  b.steer (target - b.transform)

/-- Mirror of Boid::arrive. -/
def arrive (b : Boid) (target : Vec3) : Vec3 :=
  let brakelimit : ℝ := 50
  let desired := target - b.transform
  let len := desired.length
  if len < 0.000001 then 0
  else
    let desired2 := desired.div len
    let desired3 := if len < brakelimit then
        desired2.mul ((len / brakelimit) * b.velocity.max_velocity)
      else
        desired2.mul b.velocity.max_velocity
    limit desired3 b.velocity.max_force

/-- Mirror of Boid::get_acceleration: each active averaged sum is steered or
sought and the three contributions are added. -/
def get_acceleration (b : Boid) : Vec3 :=
  let sum : Vec3 := 0
  let sum := if b.sep_count > 0 then sum + b.steer (b.sep_sum.div (b.sep_count : ℝ)) else sum
  let sum := if b.align_count > 0 then sum + b.steer (b.align_sum.div (b.align_count : ℝ)) else sum
  let sum := if b.cohesion_count > 0 then sum + b.seek (b.cohesion_sum.div (b.cohesion_count : ℝ)) else sum
  sum

end Boid

/-- The neighbor scan of calc_acceleration for one focal agent: fold every
candidate yielded by the index query (the focal entity itself excluded by
the entity identity check) into the accumulator. -/
def foldNeighbors (b : Boid) (others : List (Vec3 × Velocity)) : Boid :=
  others.foldl (fun bb tv => bb.add_other tv.1 tv.2) b

/-- The per-agent body of calc_acceleration: scan neighbors, then write
get_acceleration plus the steer toward the cursor position. -/
def calc_acceleration_for (transform : Vec3) (velocity : Velocity)
    (others : List (Vec3 × Velocity)) (cursor : Vec3) : Vec3 :=
  let boid := foldNeighbors (Boid.new transform velocity) others
  boid.get_acceleration + boid.steer (cursor - transform)

theorem Vec3.mul_mul (v : Vec3) (a b : ℝ) : (v.mul a).mul b = v.mul (a * b) := by
  simp only [Vec3.mul, Vec3.mk.injEq]
  refine ⟨by ring, by ring, by ring⟩

theorem limit_eq_of_le (v : Vec3) (f : ℝ) (h : v.length ≤ f) : limit v f = v := by
  rw [limit, if_neg (not_lt.mpr h)]

theorem limit_of_gt (v : Vec3) (f : ℝ) (hf : 0 ≤ f) (h : f < v.length) :
    limit v f = v.mul (f / v.length) ∧ (limit v f).length = f := by
  have hlen : 0 < v.length := lt_of_le_of_lt hf h
  have heq : limit v f = v.mul (f / v.length) := by
    rw [limit, if_pos h, Vec3.normalize, Vec3.mul_mul, one_div, inv_mul_eq_div]
  refine ⟨heq, ?_⟩
  rw [limit, if_pos h, Vec3.length_mul, Vec3.length_normalize v hlen, mul_one,
    abs_of_nonneg hf]

theorem limit_length_le (v : Vec3) (f : ℝ) (hf : 0 ≤ f) : (limit v f).length ≤ f := by
  by_cases h : f < v.length
  · exact le_of_eq (limit_of_gt v f hf h).2
  · rw [limit_eq_of_le v f (not_lt.mp h)]
    exact not_lt.mp h

theorem Boid.steer_length_le (b : Boid) (dir : Vec3) (hf : 0 ≤ b.velocity.max_force) :
    (b.steer dir).length ≤ b.velocity.max_force := by
  rw [Boid.steer]
  by_cases h : dir.length < 0.000001
  · rw [if_pos h]
    rw [Vec3.length_zero]
    exact hf
  · rw [if_neg h]
    exact limit_length_le _ _ hf

theorem Boid.seek_length_le (b : Boid) (target : Vec3) (hf : 0 ≤ b.velocity.max_force) :
    (b.seek target).length ≤ b.velocity.max_force :=
  Boid.steer_length_le b _ hf

theorem Boid.add_other_transform (b : Boid) (t : Vec3) (v : Velocity) :
    (b.add_other t v).transform = b.transform := by
  rw [Boid.add_other]
  split_ifs <;> rfl

theorem Boid.add_other_velocity (b : Boid) (t : Vec3) (v : Velocity) :
    (b.add_other t v).velocity = b.velocity := by
  rw [Boid.add_other]
  split_ifs <;> rfl

theorem foldNeighbors_transform (b : Boid) (others : List (Vec3 × Velocity)) :
    (foldNeighbors b others).transform = b.transform := by
  induction others generalizing b with
  | nil => rfl
  | cons a t ih =>
    have h1 : foldNeighbors b (a :: t) = foldNeighbors (b.add_other a.1 a.2) t := rfl
    rw [h1, ih, Boid.add_other_transform]

theorem foldNeighbors_velocity (b : Boid) (others : List (Vec3 × Velocity)) :
    (foldNeighbors b others).velocity = b.velocity := by
  induction others generalizing b with
  | nil => rfl
  | cons a t ih =>
    have h1 : foldNeighbors b (a :: t) = foldNeighbors (b.add_other a.1 a.2) t := rfl
    rw [h1, ih, Boid.add_other_velocity]

theorem Boid.steer_eq_of_velocity (b1 b2 : Boid) (dir : Vec3) (h : b1.velocity = b2.velocity) :
    b1.steer dir = b2.steer dir := by
  rw [Boid.steer, Boid.steer, h]

/-- C7: running update_spatial_index twice in succession, with no
intervening detection pass or position change, performs no mutation the
second time: the second run returns the first run state unchanged (grid
index and every membership record included). -/
theorem update_spatial_index_idempotent (w : World) :
    update_spatial_index (update_spatial_index w) = update_spatial_index w := by
  show (update_spatial_index w).agents.foldl commitAgent (update_spatial_index w)
      = update_spatial_index w
  rw [update_spatial_index_agents]
  refine foldl_commit_noop w.agents (update_spatial_index w) ?_
  intro e he
  exact foldl_commit_settles w.agents w e (Or.inr he)

/-- C3 (amended): inserting then removing the same agent from the same cell
restores the index exactly, provided the agent is not already present in the
bucket for that cell and that bucket, when present, is nonempty (both hold
in every reachable index state); the bucket is absent afterwards when it was
absent before. -/
theorem insert_remove_roundtrip (s : SpatialIndex) (c : Cell) (a : Entity)
    (h : s.cells c = none ∨ ∃ l, s.cells c = some l ∧ l ≠ [] ∧ a ∉ l) :
    (s.insert c a).remove c a = s := by
  obtain ⟨f⟩ := s
  refine congrArg SpatialIndex.mk (funext ?_)
  intro c2
  by_cases hc : c2 = c
  · subst hc
    simp only [SpatialIndex.remove, SpatialIndex.insert, eq_self_iff_true, if_true]
    rcases h with hnone | ⟨l, hsome, hne, hnotin⟩
    · simp only at hnone
      rw [hnone]
      simp
    · simp only at hsome
      rw [hsome]
      simp only [Option.getD_some]
      have hfilter : (l ++ [a]).filter (fun x => decide (x ≠ a)) = l := by
        rw [List.filter_append]
        have h1 : l.filter (fun x => decide (x ≠ a)) = l :=
          List.filter_eq_self.mpr (fun x hx => decide_eq_true (fun hxa => hnotin (hxa ▸ hx)))
        have h2 : [a].filter (fun x => decide (x ≠ a)) = [] := by simp
        rw [h1, h2, List.append_nil]
      show (if (l ++ [a]).filter (fun x => decide (x ≠ a)) = [] then none
          else some ((l ++ [a]).filter (fun x => decide (x ≠ a)))) = some l
      rw [hfilter, if_neg hne]
  · simp only [SpatialIndex.remove, SpatialIndex.insert, if_neg hc]

/-- C3 counterexample: when the agent is already present in the bucket,
insert followed by remove does not restore the prior state, because remove
deletes every occurrence of the agent: a bucket holding [7] ends up deleted
entirely. -/
theorem insert_remove_roundtrip_counterexample :
    ((SpatialIndex.mk (fun c2 => if c2 = ((0 : ℤ), (0 : ℤ)) then some [7] else none)).insert
        ((0 : ℤ), (0 : ℤ)) 7).remove ((0 : ℤ), (0 : ℤ)) 7
      ≠ SpatialIndex.mk (fun c2 => if c2 = ((0 : ℤ), (0 : ℤ)) then some [7] else none) := by
  intro h
  have h2 := congrArg (fun s => s.cells ((0 : ℤ), (0 : ℤ))) h
  simp [SpatialIndex.remove, SpatialIndex.insert] at h2

/-- C3 witness: on an index where the bucket for the cell is absent, the
round trip restores the empty index exactly. -/
theorem insert_remove_roundtrip_witness :
    SpatialIndex.new.cells ((0 : ℤ), (0 : ℤ)) = none ∧
    (SpatialIndex.new.insert ((0 : ℤ), (0 : ℤ)) 3).remove ((0 : ℤ), (0 : ℤ)) 3
      = SpatialIndex.new :=
  ⟨rfl, insert_remove_roundtrip SpatialIndex.new ((0 : ℤ), (0 : ℤ)) 3 (Or.inl rfl)⟩

/-- C8 (amended): removing an agent that is not present leaves the index
unchanged and signals no error, provided the bucket for the cell is not a
present-but-empty entry (which never arises); on a present-but-empty bucket
the only mutation is deletion of that empty entry.  All index operations are
total. -/
theorem remove_absent_noop (s : SpatialIndex) (c : Cell) (a : Entity)
    (h : s.cells c = none ∨ ∃ l, s.cells c = some l ∧ l ≠ [] ∧ a ∉ l) :
    s.remove c a = s := by
  obtain ⟨f⟩ := s
  refine congrArg SpatialIndex.mk (funext ?_)
  intro c2
  by_cases hc : c2 = c
  · subst hc
    simp only [SpatialIndex.remove, eq_self_iff_true, if_true]
    rcases h with hnone | ⟨l, hsome, hne, hnotin⟩
    · simp only at hnone
      rw [hnone]
    · simp only at hsome
      rw [hsome]
      have hfilter : l.filter (fun x => decide (x ≠ a)) = l :=
        List.filter_eq_self.mpr (fun x hx => decide_eq_true (fun hxa => hnotin (hxa ▸ hx)))
      show (if l.filter (fun x => decide (x ≠ a)) = [] then none
          else some (l.filter (fun x => decide (x ≠ a)))) = some l
      rw [hfilter, if_neg hne]
  · simp only [SpatialIndex.remove, if_neg hc]

/-- C8 counterexample: on an index holding a present-but-empty bucket, a
remove of an absent agent is not a no-op: it deletes the empty bucket
entry. -/
theorem remove_absent_counterexample :
    (SpatialIndex.mk (fun c2 => if c2 = ((0 : ℤ), (0 : ℤ)) then some [] else none)).remove
        ((0 : ℤ), (0 : ℤ)) 5
      ≠ SpatialIndex.mk (fun c2 => if c2 = ((0 : ℤ), (0 : ℤ)) then some [] else none) := by
  intro h
  have h2 := congrArg (fun s => s.cells ((0 : ℤ), (0 : ℤ))) h
  simp [SpatialIndex.remove] at h2

/-- C8 witness: removing from a cell with no bucket at all leaves the empty
index unchanged. -/
theorem remove_absent_noop_witness :
    SpatialIndex.new.cells ((1 : ℤ), (2 : ℤ)) = none ∧
    SpatialIndex.new.remove ((1 : ℤ), (2 : ℤ)) 5 = SpatialIndex.new :=
  ⟨rfl, remove_absent_noop SpatialIndex.new ((1 : ℤ), (2 : ℤ)) 5 (Or.inl rfl)⟩

/-- C1: in every state reachable by running whole ticks (the two phases in
order) from the startup state, an agent handle is in the bucket for cell c
exactly when its committed current cell is c, no handle is in two distinct
buckets, and no bucket entry is empty. -/
theorem grid_index_invariant (w : World) (h : Reachable w) :
    (∀ e c, e ∈ w.index.bucket c ↔ (w.assoc e).cell = some c) ∧
    (∀ e c1 c2, e ∈ w.index.bucket c1 → e ∈ w.index.bucket c2 → c1 = c2) ∧
    (∀ c l, w.index.cells c = some l → l ≠ []) := by
  obtain ⟨h1, h2, _⟩ := TickInv_reachable w h
  refine ⟨h2, ?_, h1⟩
  intro e c1 c2 hm1 hm2
  have hc1 := (h2 e c1).mp hm1
  have hc2 := (h2 e c2).mp hm2
  rw [hc1] at hc2
  injection hc2

/-- C1 witness: the state after one tick with a single agent at position
(5, 0, 5) is reachable and satisfies the invariant. -/
theorem grid_index_invariant_witness :
    Reachable (tick (fun _ => ⟨5, 0, 5⟩) (initialWorld [0])) ∧
    (∀ e c, e ∈ (tick (fun _ => ⟨5, 0, 5⟩) (initialWorld [0])).index.bucket c ↔
      ((tick (fun _ => ⟨5, 0, 5⟩) (initialWorld [0])).assoc e).cell = some c) ∧
    (∀ e c1 c2, e ∈ (tick (fun _ => ⟨5, 0, 5⟩) (initialWorld [0])).index.bucket c1 →
      e ∈ (tick (fun _ => ⟨5, 0, 5⟩) (initialWorld [0])).index.bucket c2 → c1 = c2) ∧
    (∀ c l, (tick (fun _ => ⟨5, 0, 5⟩) (initialWorld [0])).index.cells c = some l → l ≠ []) := by
  have hre : Reachable (tick (fun _ => ⟨5, 0, 5⟩) (initialWorld [0])) :=
    Reachable.step (fun _ => ⟨5, 0, 5⟩) (initialWorld [0]) (Reachable.init [0])
  exact ⟨hre, grid_index_invariant _ hre⟩

/-- C9: when the neighbor scan leaves every count at zero, the acceleration
degenerates to the pure steer toward the externally supplied cursor target,
and seek is literally steer of target minus position. -/
theorem lone_agent_pure_seek (transform : Vec3) (velocity : Velocity)
    (others : List (Vec3 × Velocity)) (cursor : Vec3)
    (h1 : (foldNeighbors (Boid.new transform velocity) others).sep_count = 0)
    (h2 : (foldNeighbors (Boid.new transform velocity) others).align_count = 0)
    (h3 : (foldNeighbors (Boid.new transform velocity) others).cohesion_count = 0) :
    calc_acceleration_for transform velocity others cursor
      = (Boid.new transform velocity).steer (cursor - transform) ∧
    (∀ (b : Boid) (t : Vec3), b.seek t = b.steer (t - b.transform)) := by
  constructor
  · rw [calc_acceleration_for]
    have hg : (foldNeighbors (Boid.new transform velocity) others).get_acceleration = 0 := by
      rw [Boid.get_acceleration]
      simp only [h1, h2, h3]
      norm_num
    rw [hg, Vec3.zero_add_vec]
    exact Boid.steer_eq_of_velocity _ _ _ (foldNeighbors_velocity _ _)
  · intro b t
    rfl

/-- C9 witness: a lone agent with an empty neighbor list. -/
theorem lone_agent_pure_seek_witness :
    (foldNeighbors (Boid.new ⟨1, 0, 2⟩ ⟨⟨0, 0, 0⟩, 10, 1, 1⟩) []).sep_count = 0 ∧
    (foldNeighbors (Boid.new ⟨1, 0, 2⟩ ⟨⟨0, 0, 0⟩, 10, 1, 1⟩) []).align_count = 0 ∧
    (foldNeighbors (Boid.new ⟨1, 0, 2⟩ ⟨⟨0, 0, 0⟩, 10, 1, 1⟩) []).cohesion_count = 0 ∧
    (calc_acceleration_for ⟨1, 0, 2⟩ ⟨⟨0, 0, 0⟩, 10, 1, 1⟩ [] ⟨3, 0, 4⟩
        = (Boid.new ⟨1, 0, 2⟩ ⟨⟨0, 0, 0⟩, 10, 1, 1⟩).steer (⟨3, 0, 4⟩ - ⟨1, 0, 2⟩) ∧
      ∀ (b : Boid) (t : Vec3), b.seek t = b.steer (t - b.transform)) :=
  ⟨rfl, rfl, rfl, lone_agent_pure_seek ⟨1, 0, 2⟩ ⟨⟨0, 0, 0⟩, 10, 1, 1⟩ [] ⟨3, 0, 4⟩ rfl rfl rfl⟩

/-- C6: steer returns zero below the near-zero epsilon; otherwise it is the
direction rescaled to the maximum speed (that rescaled vector has length
exactly max_velocity), minus the current velocity, clamped to the maximum
steering force and left untouched when already within it. -/
theorem steer_spec (b : Boid) (dir : Vec3)
    (hm : 0 ≤ b.velocity.max_velocity) (hf : 0 ≤ b.velocity.max_force) :
    (dir.length < 0.000001 → b.steer dir = 0) ∧
    (¬ dir.length < 0.000001 →
      b.steer dir
          = limit (dir.mul (b.velocity.max_velocity / dir.length) - b.velocity.velocity)
              b.velocity.max_force ∧
      (dir.mul (b.velocity.max_velocity / dir.length)).length = b.velocity.max_velocity ∧
      ((dir.mul (b.velocity.max_velocity / dir.length) - b.velocity.velocity).length
          ≤ b.velocity.max_force →
        b.steer dir = dir.mul (b.velocity.max_velocity / dir.length) - b.velocity.velocity) ∧
      (b.steer dir).length ≤ b.velocity.max_force) := by
  constructor
  · intro h
    rw [Boid.steer, if_pos h]
  · intro h
    have hpos : 0 < dir.length := lt_of_lt_of_le (by norm_num) (not_lt.mp h)
    have hsteer : b.steer dir
        = limit (dir.mul (b.velocity.max_velocity / dir.length) - b.velocity.velocity)
            b.velocity.max_force := by
      rw [Boid.steer, if_neg h]
    refine ⟨hsteer, ?_, ?_, ?_⟩
    · rw [Vec3.length_mul, abs_of_nonneg (div_nonneg hm (le_of_lt hpos)),
        div_mul_cancel₀ _ (ne_of_gt hpos)]
    · intro hle
      rw [hsteer]
      exact limit_eq_of_le _ _ hle
    · rw [hsteer]
      exact limit_length_le _ _ hf

/-- C6 witness: a concrete agent with maximum speed 10 and maximum force 1. -/
theorem steer_spec_witness :
    0 ≤ (Boid.new ⟨0, 0, 0⟩ ⟨⟨0, 0, 0⟩, 10, 1, 1⟩).velocity.max_velocity ∧
    0 ≤ (Boid.new ⟨0, 0, 0⟩ ⟨⟨0, 0, 0⟩, 10, 1, 1⟩).velocity.max_force ∧
    ((Vec3.length ⟨3, 0, 4⟩ < 0.000001 →
        (Boid.new ⟨0, 0, 0⟩ ⟨⟨0, 0, 0⟩, 10, 1, 1⟩).steer ⟨3, 0, 4⟩ = 0) ∧
      (¬ Vec3.length ⟨3, 0, 4⟩ < 0.000001 →
        (Boid.new ⟨0, 0, 0⟩ ⟨⟨0, 0, 0⟩, 10, 1, 1⟩).steer ⟨3, 0, 4⟩
            = limit
                ((Vec3.mk 3 0 4).mul
                    ((Boid.new ⟨0, 0, 0⟩ ⟨⟨0, 0, 0⟩, 10, 1, 1⟩).velocity.max_velocity
                      / Vec3.length ⟨3, 0, 4⟩)
                  - (Boid.new ⟨0, 0, 0⟩ ⟨⟨0, 0, 0⟩, 10, 1, 1⟩).velocity.velocity)
                (Boid.new ⟨0, 0, 0⟩ ⟨⟨0, 0, 0⟩, 10, 1, 1⟩).velocity.max_force ∧
        ((Vec3.mk 3 0 4).mul
            ((Boid.new ⟨0, 0, 0⟩ ⟨⟨0, 0, 0⟩, 10, 1, 1⟩).velocity.max_velocity
              / Vec3.length ⟨3, 0, 4⟩)).length
          = (Boid.new ⟨0, 0, 0⟩ ⟨⟨0, 0, 0⟩, 10, 1, 1⟩).velocity.max_velocity ∧
        (((Vec3.mk 3 0 4).mul
              ((Boid.new ⟨0, 0, 0⟩ ⟨⟨0, 0, 0⟩, 10, 1, 1⟩).velocity.max_velocity
                / Vec3.length ⟨3, 0, 4⟩)
            - (Boid.new ⟨0, 0, 0⟩ ⟨⟨0, 0, 0⟩, 10, 1, 1⟩).velocity.velocity).length
            ≤ (Boid.new ⟨0, 0, 0⟩ ⟨⟨0, 0, 0⟩, 10, 1, 1⟩).velocity.max_force →
          (Boid.new ⟨0, 0, 0⟩ ⟨⟨0, 0, 0⟩, 10, 1, 1⟩).steer ⟨3, 0, 4⟩
            = (Vec3.mk 3 0 4).mul
                ((Boid.new ⟨0, 0, 0⟩ ⟨⟨0, 0, 0⟩, 10, 1, 1⟩).velocity.max_velocity
                  / Vec3.length ⟨3, 0, 4⟩)
              - (Boid.new ⟨0, 0, 0⟩ ⟨⟨0, 0, 0⟩, 10, 1, 1⟩).velocity.velocity) ∧
        ((Boid.new ⟨0, 0, 0⟩ ⟨⟨0, 0, 0⟩, 10, 1, 1⟩).steer ⟨3, 0, 4⟩).length
          ≤ (Boid.new ⟨0, 0, 0⟩ ⟨⟨0, 0, 0⟩, 10, 1, 1⟩).velocity.max_force)) :=
  ⟨by norm_num [Boid.new], by norm_num [Boid.new],
    steer_spec (Boid.new ⟨0, 0, 0⟩ ⟨⟨0, 0, 0⟩, 10, 1, 1⟩) ⟨3, 0, 4⟩ (by norm_num [Boid.new])
      (by norm_num [Boid.new])⟩

theorem length_ite_add_le (c : Prop) [Decidable c] (s t : Vec3) (k f : ℝ)
    (hs : s.length ≤ k) (ht : t.length ≤ f) (hf : 0 ≤ f) :
    (if c then s + t else s).length ≤ k + f := by
  by_cases hc : c
  · rw [if_pos hc]
    exact le_trans (Vec3.length_add_le s t) (add_le_add hs ht)
  · rw [if_neg hc]
    exact le_trans hs (by linarith)

theorem get_acceleration_length_le (b : Boid) (hf : 0 ≤ b.velocity.max_force) :
    b.get_acceleration.length ≤ 3 * b.velocity.max_force := by
  rw [Boid.get_acceleration]
  have h1 : (if b.sep_count > 0 then (0 : Vec3) + b.steer (b.sep_sum.div (b.sep_count : ℝ))
        else (0 : Vec3)).length ≤ 0 + b.velocity.max_force :=
    length_ite_add_le _ _ _ 0 _ (le_of_eq Vec3.length_zero) (Boid.steer_length_le b _ hf) hf
  have h2 := length_ite_add_le (b.align_count > 0) _
    (b.steer (b.align_sum.div (b.align_count : ℝ))) (0 + b.velocity.max_force)
    b.velocity.max_force h1 (Boid.steer_length_le b _ hf) hf
  have h3 := length_ite_add_le (b.cohesion_count > 0) _
    (b.seek (b.cohesion_sum.div (b.cohesion_count : ℝ)))
    (0 + b.velocity.max_force + b.velocity.max_force)
    b.velocity.max_force h2 (Boid.seek_length_le b _ hf) hf
  refine le_trans h3 (by linarith)

/-- C10: the acceleration written by calc_acceleration is the plain
(unreclamped) sum of get_acceleration and the steer toward the cursor, each
of the up to four contributions being individually clamped, so its magnitude
never exceeds four times the maximum steering force. -/
theorem acceleration_bounded (transform : Vec3) (velocity : Velocity)
    (others : List (Vec3 × Velocity)) (cursor : Vec3)
    (hf : 0 ≤ velocity.max_force) :
    calc_acceleration_for transform velocity others cursor
        = (foldNeighbors (Boid.new transform velocity) others).get_acceleration
          + (foldNeighbors (Boid.new transform velocity) others).steer (cursor - transform) ∧
    (calc_acceleration_for transform velocity others cursor).length
        ≤ 4 * velocity.max_force := by
  have hBv : (foldNeighbors (Boid.new transform velocity) others).velocity = velocity :=
    foldNeighbors_velocity _ _
  have hf2 : 0 ≤ (foldNeighbors (Boid.new transform velocity) others).velocity.max_force := by
    rw [hBv]; exact hf
  refine ⟨rfl, ?_⟩
  show ((foldNeighbors (Boid.new transform velocity) others).get_acceleration
      + (foldNeighbors (Boid.new transform velocity) others).steer (cursor - transform)).length
      ≤ 4 * velocity.max_force
  have hga := get_acceleration_length_le _ hf2
  have hst := Boid.steer_length_le (foldNeighbors (Boid.new transform velocity) others)
    (cursor - transform) hf2
  refine le_trans (Vec3.length_add_le _ _) ?_
  rw [hBv] at hga hst
  linarith

/-- C10 witness: a lone agent with max_force 1 has acceleration bounded by 4. -/
theorem acceleration_bounded_witness :
    0 ≤ (Velocity.mk ⟨0, 0, 0⟩ 10 1 1).max_force ∧
    (calc_acceleration_for ⟨0, 0, 0⟩ (Velocity.mk ⟨0, 0, 0⟩ 10 1 1) [] ⟨0, 0, 7⟩
        = (foldNeighbors (Boid.new ⟨0, 0, 0⟩ (Velocity.mk ⟨0, 0, 0⟩ 10 1 1)) []).get_acceleration
          + (foldNeighbors (Boid.new ⟨0, 0, 0⟩ (Velocity.mk ⟨0, 0, 0⟩ 10 1 1)) []).steer
              (⟨0, 0, 7⟩ - ⟨0, 0, 0⟩) ∧
      (calc_acceleration_for ⟨0, 0, 0⟩ (Velocity.mk ⟨0, 0, 0⟩ 10 1 1) [] ⟨0, 0, 7⟩).length
        ≤ 4 * (Velocity.mk ⟨0, 0, 0⟩ 10 1 1).max_force) :=
  ⟨by norm_num,
    acceleration_bounded ⟨0, 0, 0⟩ (Velocity.mk ⟨0, 0, 0⟩ 10 1 1) [] ⟨0, 0, 7⟩ (by norm_num)⟩

/-- Evaluation helper: for an agent at rest with maximum speed 10 and
maximum force 1, steering along the positive z axis from at least unit
distance clamps to the unit z vector. -/
theorem steer_unit_z (b : Boid) (z : ℝ) (hz : 1 ≤ z)
    (hmv : b.velocity.max_velocity = 10) (hfo : b.velocity.max_force = 1)
    (hvv : b.velocity.velocity = ⟨0, 0, 0⟩) :
    b.steer ⟨0, 0, z⟩ = ⟨0, 0, 1⟩ := by
  have hz0 : (0 : ℝ) < z := lt_of_lt_of_le one_pos hz
  have hlen : (⟨0, 0, z⟩ : Vec3).length = z := Vec3.length_eval 0 0 z z hz0.le (by ring)
  simp only [Boid.steer]
  rw [hlen, if_neg (not_lt.mpr (by linarith)), hmv, hvv, hfo]
  have hadj : (⟨0, 0, z⟩ : Vec3).mul (10 / z) = ⟨0, 0, 10⟩ := by
    simp only [Vec3.mul, Vec3.mk.injEq]
    refine ⟨by ring, by ring, ?_⟩
    field_simp
  have hsub : (⟨0, 0, 10⟩ : Vec3) - ⟨0, 0, 0⟩ = ⟨0, 0, 10⟩ := by
    simp [Vec3.sub_def]
  rw [hadj, hsub]
  have hlen10 : (⟨0, 0, 10⟩ : Vec3).length = 10 :=
    Vec3.length_eval 0 0 10 10 (by norm_num) (by norm_num)
  have h := limit_of_gt ⟨0, 0, 10⟩ 1 (by norm_num) (by rw [hlen10]; norm_num)
  rw [h.1, hlen10]
  simp only [Vec3.mul, Vec3.mk.injEq]
  norm_num

/-- C4 (amended): each steering contribution is clamped individually: a
contribution whose unclamped desired-minus-velocity vector exceeds the
maximum steering force enters the sum with magnitude exactly max_force and
the direction of the unclamped vector; the summed acceleration written by
calc_acceleration is the plain sum of the already clamped contributions and
is not itself reclamped. -/
theorem steering_clamp_per_contribution (b : Boid) (dir : Vec3)
    (hf : 0 < b.velocity.max_force)
    (heps : ¬ dir.length < 0.000001)
    (hgt : b.velocity.max_force
        < (dir.mul (b.velocity.max_velocity / dir.length) - b.velocity.velocity).length) :
    (b.steer dir).length = b.velocity.max_force ∧
    b.steer dir
        = (dir.mul (b.velocity.max_velocity / dir.length) - b.velocity.velocity).mul
            (b.velocity.max_force
              / (dir.mul (b.velocity.max_velocity / dir.length) - b.velocity.velocity).length) ∧
    (∀ (t : Vec3) (v : Velocity) (ns : List (Vec3 × Velocity)) (cur : Vec3),
      calc_acceleration_for t v ns cur
        = (foldNeighbors (Boid.new t v) ns).get_acceleration
          + (foldNeighbors (Boid.new t v) ns).steer (cur - t)) := by
  have hsteer : b.steer dir
      = limit (dir.mul (b.velocity.max_velocity / dir.length) - b.velocity.velocity)
          b.velocity.max_force := by
    rw [Boid.steer, if_neg heps]
  have h := limit_of_gt (dir.mul (b.velocity.max_velocity / dir.length) - b.velocity.velocity)
    b.velocity.max_force hf.le hgt
  exact ⟨by rw [hsteer, h.2], by rw [hsteer, h.1], fun _ _ _ _ => rfl⟩

/-- The Velocity component every spawned ship carries (velocity varies; the
counterexample uses an agent at rest). -/
def c4velocity : Velocity := ⟨⟨0, 0, 0⟩, 10, 1, 1⟩

/-- The neighbor used by the C4 counterexample, moving along positive z. -/
def c4neighborVel : Velocity := ⟨⟨0, 0, 5⟩, 10, 1, 1⟩

/-- C4 counterexample: a focal agent whose summed contributions exceed
max_force ends up with acceleration of magnitude 3, not max_force = 1: the
sum of the individually clamped contributions is never reclamped. -/
theorem total_acceleration_not_reclamped :
    c4velocity.max_force
        < (calc_acceleration_for ⟨0, 0, 0⟩ c4velocity [(⟨0, 0, 15⟩, c4neighborVel)]
            ⟨0, 0, 7⟩).length ∧
    (calc_acceleration_for ⟨0, 0, 0⟩ c4velocity [(⟨0, 0, 15⟩, c4neighborVel)]
          ⟨0, 0, 7⟩).length
        ≠ c4velocity.max_force := by
  have hsub15 : (Boid.new ⟨0, 0, 0⟩ c4velocity).transform - ⟨0, 0, 15⟩ = (⟨0, 0, -15⟩ : Vec3) := by
    simp only [Boid.new, Vec3.sub_def, Vec3.mk.injEq]
    norm_num
  have hlen15 : (⟨0, 0, -15⟩ : Vec3).length = 15 :=
    Vec3.length_eval 0 0 (-15) 15 (by norm_num) (by norm_num)
  have hB : foldNeighbors (Boid.new ⟨0, 0, 0⟩ c4velocity) [(⟨0, 0, 15⟩, c4neighborVel)]
      = ⟨⟨0, 0, 0⟩, c4velocity, 0, 0, ⟨0, 0, 5⟩, 1, ⟨0, 0, 15⟩, 1⟩ := by
    show (Boid.new ⟨0, 0, 0⟩ c4velocity).add_other ⟨0, 0, 15⟩ c4neighborVel = _
    simp only [Boid.add_other]
    rw [hsub15, hlen15]
    norm_num [BOID_RADIUS]
    simp only [Boid.new, c4velocity, c4neighborVel, Vec3.zero_def, Vec3.add_def, Vec3.mk.injEq]
    norm_num
  have hga : (⟨⟨0, 0, 0⟩, c4velocity, 0, 0, ⟨0, 0, 5⟩, 1, ⟨0, 0, 15⟩, 1⟩ : Boid).get_acceleration
      = ⟨0, 0, 2⟩ := by
    rw [Boid.get_acceleration]
    have hdiv5 : (⟨0, 0, 5⟩ : Vec3).div (1 : ℝ) = ⟨0, 0, 5⟩ := by
      simp [Vec3.div]
    have hdiv15 : (⟨0, 0, 15⟩ : Vec3).div (1 : ℝ) = ⟨0, 0, 15⟩ := by
      simp [Vec3.div]
    have hs1 : (⟨⟨0, 0, 0⟩, c4velocity, 0, 0, ⟨0, 0, 5⟩, 1, ⟨0, 0, 15⟩, 1⟩ : Boid).steer ⟨0, 0, 5⟩
        = ⟨0, 0, 1⟩ := steer_unit_z _ 5 (by norm_num) rfl rfl rfl
    have hsk : (⟨⟨0, 0, 0⟩, c4velocity, 0, 0, ⟨0, 0, 5⟩, 1, ⟨0, 0, 15⟩, 1⟩ : Boid).seek ⟨0, 0, 15⟩
        = ⟨0, 0, 1⟩ := by
      rw [Boid.seek]
      have hsub2 : (⟨0, 0, 15⟩ : Vec3)
          - (⟨⟨0, 0, 0⟩, c4velocity, 0, 0, ⟨0, 0, 5⟩, 1, ⟨0, 0, 15⟩, 1⟩ : Boid).transform
          = (⟨0, 0, 15⟩ : Vec3) := by
        simp only [Vec3.sub_def, Vec3.mk.injEq]
        norm_num
      rw [hsub2]
      exact steer_unit_z _ 15 (by norm_num) rfl rfl rfl
    norm_num
    rw [hdiv5, hdiv15, hs1, hsk]
    simp only [Vec3.zero_def, Vec3.add_def, Vec3.mk.injEq]
    norm_num
  have hst : (⟨⟨0, 0, 0⟩, c4velocity, 0, 0, ⟨0, 0, 5⟩, 1, ⟨0, 0, 15⟩, 1⟩ : Boid).steer
      ((⟨0, 0, 7⟩ : Vec3) - ⟨0, 0, 0⟩) = ⟨0, 0, 1⟩ := by
    have hsub3 : (⟨0, 0, 7⟩ : Vec3) - ⟨0, 0, 0⟩ = (⟨0, 0, 7⟩ : Vec3) := by
      simp only [Vec3.sub_def, Vec3.mk.injEq]
      norm_num
    rw [hsub3]
    exact steer_unit_z _ 7 (by norm_num) rfl rfl rfl
  have hacc : calc_acceleration_for ⟨0, 0, 0⟩ c4velocity [(⟨0, 0, 15⟩, c4neighborVel)] ⟨0, 0, 7⟩
      = ⟨0, 0, 3⟩ := by
    show (foldNeighbors (Boid.new ⟨0, 0, 0⟩ c4velocity) [(⟨0, 0, 15⟩, c4neighborVel)]).get_acceleration
        + (foldNeighbors (Boid.new ⟨0, 0, 0⟩ c4velocity)
            [(⟨0, 0, 15⟩, c4neighborVel)]).steer ((⟨0, 0, 7⟩ : Vec3) - ⟨0, 0, 0⟩)
        = ⟨0, 0, 3⟩
    rw [hB, hga, hst]
    simp only [Vec3.add_def, Vec3.mk.injEq]
    norm_num
  have hlen3 : (⟨0, 0, 3⟩ : Vec3).length = 3 :=
    Vec3.length_eval 0 0 3 3 (by norm_num) (by norm_num)
  rw [hacc, hlen3]
  constructor
  · show c4velocity.max_force < 3
    norm_num [c4velocity]
  · show (3 : ℝ) ≠ c4velocity.max_force
    norm_num [c4velocity]

/-- C4 witness: a concrete over-limit contribution is clamped to magnitude
exactly max_force with direction preserved. -/
theorem steering_clamp_witness :
    0 < (Boid.new ⟨0, 0, 0⟩ c4velocity).velocity.max_force ∧
    ¬ (Vec3.length ⟨0, 0, 5⟩ < 0.000001) ∧
    (Boid.new ⟨0, 0, 0⟩ c4velocity).velocity.max_force
        < ((Vec3.mk 0 0 5).mul
              ((Boid.new ⟨0, 0, 0⟩ c4velocity).velocity.max_velocity / Vec3.length ⟨0, 0, 5⟩)
            - (Boid.new ⟨0, 0, 0⟩ c4velocity).velocity.velocity).length ∧
    (((Boid.new ⟨0, 0, 0⟩ c4velocity).steer ⟨0, 0, 5⟩).length
        = (Boid.new ⟨0, 0, 0⟩ c4velocity).velocity.max_force ∧
      (Boid.new ⟨0, 0, 0⟩ c4velocity).steer ⟨0, 0, 5⟩
          = ((Vec3.mk 0 0 5).mul
                ((Boid.new ⟨0, 0, 0⟩ c4velocity).velocity.max_velocity / Vec3.length ⟨0, 0, 5⟩)
              - (Boid.new ⟨0, 0, 0⟩ c4velocity).velocity.velocity).mul
              ((Boid.new ⟨0, 0, 0⟩ c4velocity).velocity.max_force
                / ((Vec3.mk 0 0 5).mul
                      ((Boid.new ⟨0, 0, 0⟩ c4velocity).velocity.max_velocity
                        / Vec3.length ⟨0, 0, 5⟩)
                    - (Boid.new ⟨0, 0, 0⟩ c4velocity).velocity.velocity).length) ∧
      (∀ (t : Vec3) (v : Velocity) (ns : List (Vec3 × Velocity)) (cur : Vec3),
        calc_acceleration_for t v ns cur
          = (foldNeighbors (Boid.new t v) ns).get_acceleration
            + (foldNeighbors (Boid.new t v) ns).steer (cur - t))) := by
  have hlen5 : (⟨0, 0, 5⟩ : Vec3).length = 5 :=
    Vec3.length_eval 0 0 5 5 (by norm_num) (by norm_num)
  have heps : ¬ (Vec3.length ⟨0, 0, 5⟩ < 0.000001) := by
    rw [hlen5]; norm_num
  have hmul : (Vec3.mk 0 0 5).mul
      ((Boid.new ⟨0, 0, 0⟩ c4velocity).velocity.max_velocity / Vec3.length ⟨0, 0, 5⟩)
      = ⟨0, 0, 10⟩ := by
    rw [hlen5]
    show (Vec3.mk 0 0 5).mul (c4velocity.max_velocity / 5) = _
    simp only [c4velocity, Vec3.mul, Vec3.mk.injEq]
    norm_num
  have hgt : (Boid.new ⟨0, 0, 0⟩ c4velocity).velocity.max_force
      < ((Vec3.mk 0 0 5).mul
            ((Boid.new ⟨0, 0, 0⟩ c4velocity).velocity.max_velocity / Vec3.length ⟨0, 0, 5⟩)
          - (Boid.new ⟨0, 0, 0⟩ c4velocity).velocity.velocity).length := by
    rw [hmul]
    show c4velocity.max_force < ((⟨0, 0, 10⟩ : Vec3) - c4velocity.velocity).length
    have hsub : (⟨0, 0, 10⟩ : Vec3) - c4velocity.velocity = ⟨0, 0, 10⟩ := by
      simp only [c4velocity, Vec3.sub_def, Vec3.mk.injEq]
      norm_num
    rw [hsub, Vec3.length_eval 0 0 10 10 (by norm_num) (by norm_num)]
    norm_num [c4velocity]
  exact ⟨by norm_num [Boid.new, c4velocity], heps, hgt,
    steering_clamp_per_contribution (Boid.new ⟨0, 0, 0⟩ c4velocity) ⟨0, 0, 5⟩
      (by norm_num [Boid.new, c4velocity]) heps hgt⟩

/-- C5: a candidate neighbor inside the exact-distance re-filter window
contributes the inverse-distance weighted separation term and count exactly
when its distance is below 10, and its velocity to the alignment sum and its
position to the cohesion sum (with counts) exactly when its distance is
below 20; candidates farther than BOID_RADIUS or closer than 0.001 are
skipped entirely. -/
theorem add_other_thresholds (b : Boid) (t2 : Vec3) (v2 : Velocity)
    (hfar : ¬ (b.transform - t2).length > BOID_RADIUS)
    (hnear : ¬ (b.transform - t2).length < 0.001) :
    ((b.add_other t2 v2).sep_count
        = b.sep_count + (if (b.transform - t2).length < 10 then 1 else 0)) ∧
    ((b.add_other t2 v2).sep_sum
        = (if (b.transform - t2).length < 10 then
            b.sep_sum + (b.transform - t2).normalize.div (b.transform - t2).length
          else b.sep_sum)) ∧
    ((b.add_other t2 v2).align_count
        = b.align_count + (if (b.transform - t2).length < 20 then 1 else 0)) ∧
    ((b.add_other t2 v2).align_sum
        = (if (b.transform - t2).length < 20 then b.align_sum + v2.velocity else b.align_sum)) ∧
    ((b.add_other t2 v2).cohesion_count
        = b.cohesion_count + (if (b.transform - t2).length < 20 then 1 else 0)) ∧
    ((b.add_other t2 v2).cohesion_sum
        = (if (b.transform - t2).length < 20 then b.cohesion_sum + t2 else b.cohesion_sum)) ∧
    (∀ (b2 : Boid) (t3 : Vec3) (v3 : Velocity),
      (b2.transform - t3).length > BOID_RADIUS ∨ (b2.transform - t3).length < 0.001 →
        b2.add_other t3 v3 = b2) := by
  have hskip : ∀ (b2 : Boid) (t3 : Vec3) (v3 : Velocity),
      (b2.transform - t3).length > BOID_RADIUS ∨ (b2.transform - t3).length < 0.001 →
        b2.add_other t3 v3 = b2 := by
    intro b2 t3 v3 h
    rw [Boid.add_other, if_pos h]
  refine ⟨?_, ?_, ?_, ?_, ?_, ?_, hskip⟩ <;>
    · simp only [Boid.add_other, if_neg (not_or.mpr ⟨hfar, hnear⟩)]
      by_cases h10 : (b.transform - t2).length < 10 <;>
        by_cases h20 : (b.transform - t2).length < 20 <;>
          simp [h10, h20]

/-- C5 witness: one neighbor at distance 5 and one at distance 15.  Only the
closer one enters the separation sum (count 1) while both enter the
alignment and cohesion sums (counts 2). -/
theorem add_other_thresholds_witness :
    ¬ ((Boid.new ⟨0, 0, 0⟩ ⟨⟨0, 0, 0⟩, 10, 1, 1⟩).transform - ⟨0, 0, 5⟩).length > BOID_RADIUS ∧
    ¬ ((Boid.new ⟨0, 0, 0⟩ ⟨⟨0, 0, 0⟩, 10, 1, 1⟩).transform - ⟨0, 0, 5⟩).length < 0.001 ∧
    ¬ ((Boid.new ⟨0, 0, 0⟩ ⟨⟨0, 0, 0⟩, 10, 1, 1⟩).transform - ⟨0, 0, 15⟩).length > BOID_RADIUS ∧
    ¬ ((Boid.new ⟨0, 0, 0⟩ ⟨⟨0, 0, 0⟩, 10, 1, 1⟩).transform - ⟨0, 0, 15⟩).length < 0.001 ∧
    (foldNeighbors (Boid.new ⟨0, 0, 0⟩ ⟨⟨0, 0, 0⟩, 10, 1, 1⟩)
        [(⟨0, 0, 5⟩, ⟨⟨0, 0, 1⟩, 10, 1, 1⟩), (⟨0, 0, 15⟩, ⟨⟨0, 0, 1⟩, 10, 1, 1⟩)]).sep_count = 1 ∧
    (foldNeighbors (Boid.new ⟨0, 0, 0⟩ ⟨⟨0, 0, 0⟩, 10, 1, 1⟩)
        [(⟨0, 0, 5⟩, ⟨⟨0, 0, 1⟩, 10, 1, 1⟩), (⟨0, 0, 15⟩, ⟨⟨0, 0, 1⟩, 10, 1, 1⟩)]).align_count = 2 ∧
    (foldNeighbors (Boid.new ⟨0, 0, 0⟩ ⟨⟨0, 0, 0⟩, 10, 1, 1⟩)
        [(⟨0, 0, 5⟩, ⟨⟨0, 0, 1⟩, 10, 1, 1⟩), (⟨0, 0, 15⟩, ⟨⟨0, 0, 1⟩, 10, 1, 1⟩)]).cohesion_count
      = 2 := by
  have hsub5 : (Boid.new ⟨0, 0, 0⟩ ⟨⟨0, 0, 0⟩, 10, 1, 1⟩).transform - ⟨0, 0, 5⟩
      = (⟨0, 0, -5⟩ : Vec3) := by
    simp only [Boid.new, Vec3.sub_def, Vec3.mk.injEq]
    norm_num
  have hd5 : (⟨0, 0, -5⟩ : Vec3).length = 5 :=
    Vec3.length_eval 0 0 (-5) 5 (by norm_num) (by norm_num)
  have hsub15 : (Boid.new ⟨0, 0, 0⟩ ⟨⟨0, 0, 0⟩, 10, 1, 1⟩).transform - ⟨0, 0, 15⟩
      = (⟨0, 0, -15⟩ : Vec3) := by
    simp only [Boid.new, Vec3.sub_def, Vec3.mk.injEq]
    norm_num
  have hd15 : (⟨0, 0, -15⟩ : Vec3).length = 15 :=
    Vec3.length_eval 0 0 (-15) 15 (by norm_num) (by norm_num)
  have hfar5 : ¬ ((Boid.new ⟨0, 0, 0⟩ ⟨⟨0, 0, 0⟩, 10, 1, 1⟩).transform - ⟨0, 0, 5⟩).length
      > BOID_RADIUS := by
    rw [hsub5, hd5]
    norm_num [BOID_RADIUS]
  have hnear5 : ¬ ((Boid.new ⟨0, 0, 0⟩ ⟨⟨0, 0, 0⟩, 10, 1, 1⟩).transform - ⟨0, 0, 5⟩).length
      < 0.001 := by
    rw [hsub5, hd5]
    norm_num
  have hfar15 : ¬ ((Boid.new ⟨0, 0, 0⟩ ⟨⟨0, 0, 0⟩, 10, 1, 1⟩).transform - ⟨0, 0, 15⟩).length
      > BOID_RADIUS := by
    rw [hsub15, hd15]
    norm_num [BOID_RADIUS]
  have hnear15 : ¬ ((Boid.new ⟨0, 0, 0⟩ ⟨⟨0, 0, 0⟩, 10, 1, 1⟩).transform - ⟨0, 0, 15⟩).length
      < 0.001 := by
    rw [hsub15, hd15]
    norm_num
  obtain ⟨hs1, _, ha1, _, hc1, _, _⟩ :=
    add_other_thresholds (Boid.new ⟨0, 0, 0⟩ ⟨⟨0, 0, 0⟩, 10, 1, 1⟩) ⟨0, 0, 5⟩
      ⟨⟨0, 0, 1⟩, 10, 1, 1⟩ hfar5 hnear5
  rw [hsub5, hd5] at hs1 ha1 hc1
  norm_num [Boid.new] at hs1 ha1 hc1
  have hB1t : ((Boid.new ⟨0, 0, 0⟩ ⟨⟨0, 0, 0⟩, 10, 1, 1⟩).add_other ⟨0, 0, 5⟩
      ⟨⟨0, 0, 1⟩, 10, 1, 1⟩).transform = (Boid.new ⟨0, 0, 0⟩ ⟨⟨0, 0, 0⟩, 10, 1, 1⟩).transform :=
    Boid.add_other_transform _ _ _
  have hfar15b : ¬ (((Boid.new ⟨0, 0, 0⟩ ⟨⟨0, 0, 0⟩, 10, 1, 1⟩).add_other ⟨0, 0, 5⟩
      ⟨⟨0, 0, 1⟩, 10, 1, 1⟩).transform - ⟨0, 0, 15⟩).length > BOID_RADIUS := by
    rw [hB1t]
    exact hfar15
  have hnear15b : ¬ (((Boid.new ⟨0, 0, 0⟩ ⟨⟨0, 0, 0⟩, 10, 1, 1⟩).add_other ⟨0, 0, 5⟩
      ⟨⟨0, 0, 1⟩, 10, 1, 1⟩).transform - ⟨0, 0, 15⟩).length < 0.001 := by
    rw [hB1t]
    exact hnear15
  obtain ⟨hs2, _, ha2, _, hc2, _, _⟩ :=
    add_other_thresholds ((Boid.new ⟨0, 0, 0⟩ ⟨⟨0, 0, 0⟩, 10, 1, 1⟩).add_other ⟨0, 0, 5⟩
      ⟨⟨0, 0, 1⟩, 10, 1, 1⟩) ⟨0, 0, 15⟩ ⟨⟨0, 0, 1⟩, 10, 1, 1⟩ hfar15b hnear15b
  rw [hB1t, hsub15, hd15] at hs2 ha2 hc2
  norm_num at hs2 ha2 hc2
  refine ⟨hfar5, hnear5, hfar15, hnear15, ?_, ?_, ?_⟩
  · show (((Boid.new ⟨0, 0, 0⟩ ⟨⟨0, 0, 0⟩, 10, 1, 1⟩).add_other ⟨0, 0, 5⟩
        ⟨⟨0, 0, 1⟩, 10, 1, 1⟩).add_other ⟨0, 0, 15⟩ ⟨⟨0, 0, 1⟩, 10, 1, 1⟩).sep_count = 1
    rw [hs2]
    exact hs1
  · show (((Boid.new ⟨0, 0, 0⟩ ⟨⟨0, 0, 0⟩, 10, 1, 1⟩).add_other ⟨0, 0, 5⟩
        ⟨⟨0, 0, 1⟩, 10, 1, 1⟩).add_other ⟨0, 0, 15⟩ ⟨⟨0, 0, 1⟩, 10, 1, 1⟩).align_count = 2
    have ha1b : ((Boid.new ⟨0, 0, 0⟩ ⟨⟨0, 0, 0⟩, 10, 1, 1⟩).add_other ⟨0, 0, 5⟩
        ⟨⟨0, 0, 1⟩, 10, 1, 1⟩).align_count = 1 := ha1
    rw [ha2, ha1b]
    norm_num
  · show (((Boid.new ⟨0, 0, 0⟩ ⟨⟨0, 0, 0⟩, 10, 1, 1⟩).add_other ⟨0, 0, 5⟩
        ⟨⟨0, 0, 1⟩, 10, 1, 1⟩).add_other ⟨0, 0, 15⟩ ⟨⟨0, 0, 1⟩, 10, 1, 1⟩).cohesion_count = 2
    have hc1b : ((Boid.new ⟨0, 0, 0⟩ ⟨⟨0, 0, 0⟩, 10, 1, 1⟩).add_other ⟨0, 0, 5⟩
        ⟨⟨0, 0, 1⟩, 10, 1, 1⟩).cohesion_count = 1 := hc1
    rw [hc2, hc1b]
    norm_num

/-- The claim-side predicate: the closed 20 by 20 square region of a cell
meets the closed disc of the given radius around the query position (x/z
plane). -/
def cellIntersectsClosedDisc (pos : Vec3) (radius : ℝ) (c : Cell) : Prop :=
  ∃ qx qz : ℝ,
    CELL_DIM * (c.1 : ℝ) ≤ qx ∧ qx ≤ CELL_DIM * ((c.1 : ℝ) + 1) ∧
    CELL_DIM * (c.2 : ℝ) ≤ qz ∧ qz ≤ CELL_DIM * ((c.2 : ℝ) + 1) ∧
    (qx - pos.x) ^ 2 + (qz - pos.z) ^ 2 ≤ radius ^ 2

/-- The claim-side predicate with the open disc: some point of the closed
square is strictly within the radius. -/
def cellIntersectsOpenDisc (pos : Vec3) (radius : ℝ) (c : Cell) : Prop :=
  ∃ qx qz : ℝ,
    CELL_DIM * (c.1 : ℝ) ≤ qx ∧ qx ≤ CELL_DIM * ((c.1 : ℝ) + 1) ∧
    CELL_DIM * (c.2 : ℝ) ≤ qz ∧ qz ≤ CELL_DIM * ((c.2 : ℝ) + 1) ∧
    (qx - pos.x) ^ 2 + (qz - pos.z) ^ 2 < radius ^ 2

theorem mem_query_cells (pos : Vec3) (radius : ℝ) (x z : ℤ) :
    (x, z) ∈ SpatialIndex.query_cells pos radius ↔
      (⌊pos.z / CELL_DIM - radius / CELL_DIM⌋ ≤ z ∧
        z ≤ ⌈pos.z / CELL_DIM + radius / CELL_DIM⌉ - 1) ∧
      (⌊pos.x / CELL_DIM
          - Real.sqrt (radius / CELL_DIM * (radius / CELL_DIM)
              - ((if ((z + 1 : ℤ) : ℝ) < pos.z / CELL_DIM then ((z + 1 : ℤ) : ℝ)
                  else if ((z : ℤ) : ℝ) > pos.z / CELL_DIM then ((z : ℤ) : ℝ)
                  else pos.z / CELL_DIM) - pos.z / CELL_DIM)
                * ((if ((z + 1 : ℤ) : ℝ) < pos.z / CELL_DIM then ((z + 1 : ℤ) : ℝ)
                    else if ((z : ℤ) : ℝ) > pos.z / CELL_DIM then ((z : ℤ) : ℝ)
                    else pos.z / CELL_DIM) - pos.z / CELL_DIM))⌋ ≤ x ∧
        x ≤ ⌈pos.x / CELL_DIM
            + Real.sqrt (radius / CELL_DIM * (radius / CELL_DIM)
                - ((if ((z + 1 : ℤ) : ℝ) < pos.z / CELL_DIM then ((z + 1 : ℤ) : ℝ)
                    else if ((z : ℤ) : ℝ) > pos.z / CELL_DIM then ((z : ℤ) : ℝ)
                    else pos.z / CELL_DIM) - pos.z / CELL_DIM)
                  * ((if ((z + 1 : ℤ) : ℝ) < pos.z / CELL_DIM then ((z + 1 : ℤ) : ℝ)
                      else if ((z : ℤ) : ℝ) > pos.z / CELL_DIM then ((z : ℤ) : ℝ)
                      else pos.z / CELL_DIM) - pos.z / CELL_DIM))⌉ - 1) := by
  simp only [SpatialIndex.query_cells, List.mem_flatMap, List.mem_map, mem_intRange]
  constructor
  · rintro ⟨z2, hz2, x2, hx2, heq⟩
    have hx_eq : x2 = x := congrArg Prod.fst heq
    have hz_eq : z2 = z := congrArg Prod.snd heq
    subst hx_eq
    subst hz_eq
    exact ⟨hz2, hx2⟩
  · rintro ⟨hz, hx⟩
    exact ⟨z, hz, x, hx, rfl⟩

set_option maxHeartbeats 1000000 in
/-- C2 (amended): query_cells enumerates every cell whose closed square
meets the open disc of the query radius (no false negative for any point
strictly within the radius); cells touching only the boundary circle can be
missed, and cells that merely intersect partially may still be included. -/
theorem query_cells_no_false_negative (pos : Vec3) (radius : ℝ) (c : Cell)
    (hr : 0 < radius) (h : cellIntersectsOpenDisc pos radius c) :
    c ∈ SpatialIndex.query_cells pos radius := by
  obtain ⟨x, z⟩ := c
  obtain ⟨qx, qz, h1, h2, h3, h4, h5⟩ := h
  rw [mem_query_cells]
  set cz := pos.z / CELL_DIM with hcz_def
  set cx := pos.x / CELL_DIM with hcx_def
  set rc := radius / CELL_DIM with hrc_def
  have h20 : (0 : ℝ) < CELL_DIM := by norm_num [CELL_DIM]
  have hrc : 0 < rc := div_pos hr h20
  set ux := qx / CELL_DIM with hux_def
  set uz := qz / CELL_DIM with huz_def
  have hux1 : (x : ℝ) ≤ ux := (le_div_iff h20).mpr (by dsimp only at h1 ⊢; linarith)
  have hux2 : ux ≤ (x : ℝ) + 1 := (div_le_iff h20).mpr (by dsimp only at h2 ⊢; linarith)
  have huz1 : (z : ℝ) ≤ uz := (le_div_iff h20).mpr (by dsimp only at h3 ⊢; linarith)
  have huz2 : uz ≤ (z : ℝ) + 1 := (div_le_iff h20).mpr (by dsimp only at h4 ⊢; linarith)
  have hsum : (ux - cx) ^ 2 + (uz - cz) ^ 2 < rc ^ 2 := by
    have e1 : ux - cx = (qx - pos.x) / CELL_DIM := (sub_div _ _ _).symm
    have e2 : uz - cz = (qz - pos.z) / CELL_DIM := (sub_div _ _ _).symm
    rw [e1, e2, hrc_def, div_pow, div_pow, div_pow, div_add_div_same]
    exact (div_lt_div_right (by positivity)).mpr h5
  have hz1 : (uz - cz) ^ 2 < rc ^ 2 := by nlinarith [sq_nonneg (ux - cx)]
  have habsz : |uz - cz| < rc :=
    lt_of_pow_lt_pow_left 2 hrc.le (by rw [sq_abs]; exact hz1)
  have hzlo : cz - rc < uz := by
    have := (abs_lt.mp habsz).1
    linarith
  have hzhi : uz < cz + rc := by
    have := (abs_lt.mp habsz).2
    linarith
  have hminz : ⌊cz - rc⌋ ≤ z := by
    have hlt : ⌊cz - rc⌋ < z + 1 := Int.floor_lt.mpr (by push_cast; linarith)
    omega
  have hmaxz : z ≤ ⌈cz + rc⌉ - 1 := by
    have hlt : z < ⌈cz + rc⌉ := Int.lt_ceil.mpr (by linarith)
    omega
  set T := (if ((z + 1 : ℤ) : ℝ) < cz then ((z + 1 : ℤ) : ℝ)
    else if ((z : ℤ) : ℝ) > cz then ((z : ℤ) : ℝ) else cz) with hT_def
  have hzt : (T - cz) * (T - cz) ≤ (uz - cz) ^ 2 := by
    by_cases hA : ((z + 1 : ℤ) : ℝ) < cz
    · have hTeq : T = ((z + 1 : ℤ) : ℝ) := hT_def.trans (if_pos hA)
      rw [hTeq]
      push_cast
      push_cast at hA
      have key : 0 ≤ (((z : ℝ) + 1) - uz) * ((cz - uz) + (cz - ((z : ℝ) + 1))) :=
        mul_nonneg (by linarith) (by linarith)
      nlinarith [key]
    · by_cases hB : ((z : ℤ) : ℝ) > cz
      · have hTeq : T = ((z : ℤ) : ℝ) := hT_def.trans ((if_neg hA).trans (if_pos hB))
        rw [hTeq]
        have key : 0 ≤ (uz - (z : ℝ)) * ((uz - cz) + ((z : ℝ) - cz)) :=
          mul_nonneg (by linarith) (by linarith)
        nlinarith [key]
      · have hTeq : T = cz := hT_def.trans ((if_neg hA).trans (if_neg hB))
        rw [hTeq]
        nlinarith [sq_nonneg (uz - cz)]
  have hD : (ux - cx) ^ 2 < rc * rc - (T - cz) * (T - cz) := by nlinarith [hsum, hzt]
  have hD0 : 0 ≤ rc * rc - (T - cz) * (T - cz) :=
    le_of_lt (lt_of_le_of_lt (sq_nonneg (ux - cx)) hD)
  set xd := Real.sqrt (rc * rc - (T - cz) * (T - cz)) with hxd_def
  have hxd2 : xd ^ 2 = rc * rc - (T - cz) * (T - cz) := Real.sq_sqrt hD0
  have hx2 : (ux - cx) ^ 2 < xd ^ 2 := by rw [hxd2]; exact hD
  have habsx : |ux - cx| < xd :=
    lt_of_pow_lt_pow_left 2 (Real.sqrt_nonneg _) (by rw [sq_abs]; exact hx2)
  have hxlo : cx - xd < ux := by
    have := (abs_lt.mp habsx).1
    linarith
  have hxhi : ux < cx + xd := by
    have := (abs_lt.mp habsx).2
    linarith
  have hminx : ⌊cx - xd⌋ ≤ x := by
    have hlt : ⌊cx - xd⌋ < x + 1 := Int.floor_lt.mpr (by push_cast; linarith)
    omega
  have hmaxx : x ≤ ⌈cx + xd⌉ - 1 := by
    have hlt : x < ⌈cx + xd⌉ := Int.lt_ceil.mpr (by linarith)
    omega
  exact ⟨⟨hminz, hmaxz⟩, ⟨hminx, hmaxx⟩⟩

/-- C2 counterexample: with the query at the origin and radius 20, the cell
(0, 1) touches the closed disc at the single point (0, 20) (even a position
inside the half-open cell square attains distance exactly 20), yet the row
z = 1 is outside the enumerated range, so the cell is never visited. -/
theorem query_cells_closed_disc_counterexample :
    cellIntersectsClosedDisc ⟨0, 0, 0⟩ 20 ((0 : ℤ), (1 : ℤ)) ∧
    ((0 : ℤ), (1 : ℤ)) ∉ SpatialIndex.query_cells ⟨0, 0, 0⟩ 20 := by
  constructor
  · refine ⟨0, 20, ?_, ?_, ?_, ?_, ?_⟩ <;> norm_num [CELL_DIM]
  · intro hmem
    rw [mem_query_cells] at hmem
    obtain ⟨⟨_, hz2⟩, _⟩ := hmem
    norm_num [CELL_DIM] at hz2

/-- C2 witness: the cell containing the query point is enumerated for a
query of radius 12 at the origin. -/
theorem query_cells_no_false_negative_witness :
    (0 : ℝ) < 12 ∧
    cellIntersectsOpenDisc ⟨0, 0, 0⟩ 12 ((0 : ℤ), (0 : ℤ)) ∧
    ((0 : ℤ), (0 : ℤ)) ∈ SpatialIndex.query_cells ⟨0, 0, 0⟩ 12 := by
  have hint : cellIntersectsOpenDisc ⟨0, 0, 0⟩ 12 ((0 : ℤ), (0 : ℤ)) := by
    refine ⟨0, 0, ?_, ?_, ?_, ?_, ?_⟩ <;> norm_num [CELL_DIM]
  exact ⟨by norm_num, hint,
    query_cells_no_false_negative ⟨0, 0, 0⟩ 12 ((0 : ℤ), (0 : ℤ)) (by norm_num) hint⟩
